import Mathlib

/-!
Verification of the resumable bulk-fetch and incremental-merge pipeline of
the NBADataAnalytics repository (src/GetBoxScores.py), against its
natural-language specification.

The embedding below translates the relevant Python functions into Lean:

* `seasonMatch` / `seasonIter` embed `_season_iter` (the season expander):
  the anchored regular expression `^(\d{4})-(\d{2}|\d{4})$` is embedded as a
  structural check on the character list (`\d` modelled as the ASCII digits
  `0`-`9`, the only digits appearing in season tokens), `int(...)` as
  `digitsVal`, and the f-strings building season labels as explicit decimal
  rendering (`natRepr`, `pad2`).

* `cleanForTableau` embeds `_clean_for_tableau`: the `gameId` column is
  already stored as a string in the row model, so `astype(str)` is the
  identity; the best-effort datetime parse does not change row identity; the
  remaining behaviour is `drop_duplicates().reset_index(drop=True)`, i.e.
  removal of exact duplicate rows keeping the first occurrence.

* `computeRemaining` embeds the resume logic of `get_historical_boxscores`
  (filtering out already-persisted ids, then slicing at the stored marker).

* `RunState` / `runStep` / `runLoop` embed the per-identifier fetch loop of
  `get_historical_boxscores`, with file writes modelled as fields of the
  state (`persisted`, `marker`) and sleeps recorded in `sleeps`/`pauses`.
  Python float arithmetic on `time_buffer` is modelled over `ℚ`, with
  `round(x, 2)` embedded as round-half-to-even at two decimals
  (`pyRound2`); the properties proved do not depend on binary rounding of
  the underlying floats.
-/

/-! ### Decimal digits and rendering (embedding of `int(...)` and f-strings) -/

/-- Value of a list of ASCII digit characters, most significant first:
the embedding of Python `int(s)` on a digit string. -/
def digitsVal (cs : List Char) : Nat :=
  cs.foldl (fun a c => a * 10 + (c.toNat - 48)) 0

/-- The ASCII digit character for `n < 10`. -/
def digitChar (n : Nat) : Char :=
  Char.ofNat (48 + n)

/-- Fuel-driven worker for `natRepr` (structural recursion on the fuel, so
that concrete labels evaluate by `rfl`/`decide`; `natRepr` always supplies
enough fuel). -/
def natReprAux : Nat → Nat → List Char
  | 0, _ => []
  | fuel + 1, n =>
    if n < 10 then [digitChar n]
    else natReprAux fuel (n / 10) ++ [digitChar (n % 10)]

/-- Decimal rendering of a natural number, most significant digit first:
the embedding of Python `f"{y}"` on a nonnegative integer. -/
def natRepr (n : Nat) : List Char :=
  natReprAux (n + 1) n

/-- Two-digit zero-padded rendering: the embedding of Python `f"{e:02d}"`
for `e < 100`. -/
def pad2 (n : Nat) : List Char :=
  if n < 10 then ['0', digitChar n] else natRepr n

/-! ### `_season_iter` (SeasonExpander) -/

/-- Embedding of `re.match(r"^(\d{4})-(\d{2}|\d{4})$", seasons)`:
returns the two capture groups on a match (`int` already applied to the
first, as in the source), `none` otherwise. -/
def seasonMatch (s : String) : Option (Nat × List Char) :=
  let cs := s.data
  if (cs.length = 7 || cs.length = 9)
      && (cs.take 4).all Char.isDigit
      && (cs.get? 4 = some '-')
      && (cs.drop 5).all Char.isDigit then
    some (digitsVal (cs.take 4), cs.drop 5)
  else
    none

/-- The season label built in the loop of `_season_iter`:
`f"{y}-{(y+1) % 100:02d}"`. -/
def mkSeasonLabel (y : Nat) : List Char :=
  natRepr y ++ '-' :: pad2 ((y + 1) % 100)

/-- Embedding of `_season_iter`.  `Except.error` embeds `raise ValueError`;
season labels are character lists. -/
def seasonIter (seasons : String) : Except String (List (List Char)) :=
  match seasonMatch seasons with
  | none => .error "Use YYYY-YY or YYYY-YYYY, e.g., 2025-26 or 2020-2026"
  | some (start, endGroup) =>
    if endGroup.length = 2 then
      .ok [natRepr start ++ '-' :: pad2 (digitsVal endGroup)]
    else
      let e := digitsVal endGroup
      .ok (((List.range' start (e + 1 - start)).map mkSeasonLabel))

/-- Start year of a season label: the digits before the dash, read back as a
number (used only to state properties of produced labels). -/
def labelStart (lbl : List Char) : Nat :=
  digitsVal (lbl.takeWhile (· ≠ '-'))

/-- End part of a season label: the digits after the dash, read back as a
number (used only to state properties of produced labels). -/
def labelEnd (lbl : List Char) : Nat :=
  digitsVal ((lbl.dropWhile (· ≠ '-')).drop 1)

/-! ### `_clean_for_tableau` (Deduplicator) -/

/-- A box-score row: game identifier, entity (player or team) identifier,
and the statistical columns.  `gameId` is a string, as enforced by the
pipeline. -/
structure Row where
  gameId : String
  entityId : String
  stats : List Int
deriving DecidableEq, Repr

/-- Worker for `drop_duplicates`: keeps the first occurrence of every row
value, skipping rows already `seen`. -/
def dropDupAux (seen : List Row) : List Row → List Row
  | [] => []
  | r :: rs => if r ∈ seen then dropDupAux seen rs else r :: dropDupAux (r :: seen) rs

/-- Embedding of `pandas.DataFrame.drop_duplicates()` (default arguments):
remove exact duplicate rows, keeping the first occurrence. -/
def dropDuplicates (df : List Row) : List Row :=
  dropDupAux [] df

/-- Embedding of `_clean_for_tableau`: the `gameId` string cast and the
best-effort datetime parse are the identity on this row model, so the
function is `drop_duplicates().reset_index(drop=True)` (the index reset has
no counterpart on lists). -/
def cleanForTableau (df : List Row) : List Row :=
  dropDuplicates df

/-! ### Resume logic of `get_historical_boxscores` -/

/-- Embedding of the resume prologue of `get_historical_boxscores`:
`remaining = [gid for gid in game_ids if str(gid) not in done_ids]`, then,
when a marker was read from the checkpoint file (`marker = some m`), the
slice `remaining[remaining.index(m):]` is taken whenever `m in remaining`.
`marker = none` covers both a missing marker file and a failed read. -/
def computeRemaining (gameIds doneIds : List String) (marker : Option String) : List String :=
  let remaining := gameIds.filter (fun gid => !doneIds.contains gid)
  match marker with
  | none => remaining
  | some m =>
    if remaining.contains m then remaining.drop (remaining.indexOf m) else remaining

/-! ### `time_buffer` arithmetic (modelled over `ℚ`) -/

/-- Round-half-to-even to an integer: the embedding of Python `round(x)`
on the values reached by the pipeline (the proved properties do not depend
on the tie direction). -/
def roundHalfEven (q : ℚ) : ℤ :=
  if q - ⌊q⌋ < 1/2 then ⌊q⌋
  else if (1 : ℚ)/2 < q - ⌊q⌋ then ⌊q⌋ + 1
  else if 2 ∣ ⌊q⌋ then ⌊q⌋ else ⌊q⌋ + 1

/-- Embedding of Python `round(x, 2)`. -/
def pyRound2 (q : ℚ) : ℚ :=
  (roundHalfEven (q * 100) : ℚ) / 100

/-- Embedding of the entry clamp of `get_historical_boxscores`:
`if time_buffer < 0.01: time_buffer = 0.01`. -/
def entryClamp (t : ℚ) : ℚ :=
  if t < 1/100 then 1/100 else t

/-- Embedding of the failure-branch update
`time_buffer = round(min(time_buffer * 1.5, 10.0), 2)`. -/
def nextBuffer (t : ℚ) : ℚ :=
  pyRound2 (min (t * (3/2)) 10)

/-! ### The per-identifier fetch loop of `get_historical_boxscores` -/

/-- State of one run of the fetch loop.  `persisted` and `marker` model the
contents of the output CSV and of the checkpoint marker file as written by
this run (`none` before the first write); `sleeps` records the
between-request delays and `pauses` the post-failure pauses. -/
structure RunState where
  allData : List Row
  timeBuffer : ℚ
  persisted : Option (List Row)
  marker : Option String
  sleeps : List ℚ
  pauses : List ℚ
  attempted : Nat
deriving DecidableEq

/-- Embedding of one iteration of the `for i, gid in enumerate(remaining, 1)`
loop of `get_historical_boxscores`.  A fetch oracle stands for the data
source: `fetch gid = some df` embeds a successful
`BoxScore...V3(game_id=gid).get_data_frames()[df_index]` (the `gameId`
string normalization is the identity on `Row`), `fetch gid = none` embeds a
raised exception.  `n` is `len(remaining)` and `i` the 1-based index. -/
def runStep (fetch : String → Option (List Row)) (n i : Nat) (st : RunState) (gid : String) : RunState :=
  match fetch gid with
  | some df =>
    let allData := st.allData ++ df
    let st1 : RunState :=
      { st with
        allData := allData
        sleeps := st.sleeps ++ [st.timeBuffer]
        attempted := st.attempted + 1 }
    if i % 100 = 0 ∨ i = n then
      { st1 with persisted := some (cleanForTableau allData), marker := some gid }
    else
      st1
  | none =>
    { st with
      persisted := some (cleanForTableau st.allData)
      marker := some gid
      timeBuffer := nextBuffer st.timeBuffer
      pauses := st.pauses ++ [max 30 (nextBuffer st.timeBuffer)]
      attempted := st.attempted + 1 }

/-- The fetch loop itself, threading the 1-based index. -/
def runLoop (fetch : String → Option (List Row)) (n : Nat) : Nat → RunState → List String → RunState
  | _, st, [] => st
  | i, st, gid :: rest => runLoop fetch n (i + 1) (runStep fetch n i st gid) rest

/-- A whole run of the loop of `get_historical_boxscores` over a remaining
list, starting from prior data, including the entry clamp of `time_buffer`
and the final `_clean_for_tableau` + write. -/
def runRemaining (fetch : String → Option (List Row)) (priorData : List Row) (timeBuffer : ℚ) (remaining : List String) : RunState :=
  let st0 : RunState :=
    { allData := priorData
      timeBuffer := entryClamp timeBuffer
      persisted := none
      marker := none
      sleeps := []
      pauses := []
      attempted := 0 }
  let stFinal := runLoop fetch remaining.length 1 st0 remaining
  { stFinal with persisted := some (cleanForTableau stFinal.allData) }

/-! ### MergeEngine (modelled from the spec) -/

/-- `true` iff `sfx` is a final segment of `c` (used to state that a column
name is not already mode-suffixed). -/
def hasSuffix (sfx c : List Char) : Bool :=
  c.drop (c.length - sfx.length) == sfx

/-- The `_trad` mode suffix. -/
def tradSfx : List Char := ['_', 't', 'r', 'a', 'd']

/-- The `_adv` mode suffix. -/
def advSfx : List Char := ['_', 'a', 'd', 'v']

/-- Modelled from the spec: a tabular dataset as the MergeEngine sees it —
the repository has no merge of the traditional and advanced datasets under
src/, so this component follows §4.2 of the spec.  The key columns (game
id plus entity id(s)) are abstracted into the single key of each row;
`cols` lists the non-key column names and each row carries one value per
non-key column. -/
structure STable where
  cols : List (List Char)
  rows : List (String × List String)

/-- The keys of a table, in row order. -/
def STable.keys (t : STable) : List String :=
  t.rows.map Prod.fst

/-- Modelled from the spec: rename a non-key column of one source, adding
the source-mode suffix exactly when the other source also has the column. -/
def suffixCol (otherCols : List (List Char)) (sfx : List Char) (c : List Char) : List Char :=
  if c ∈ otherCols then c ++ sfx else c

/-- The merged table: key, then the (suffixed) traditional columns, then
the (suffixed) advanced columns; values are `none` for an entity present in
only one source. -/
structure MergedTable where
  cols : List (List Char)
  rows : List (String × List (Option String))

/-- Look up the row values of a key. -/
def lookupVals (rows : List (String × List String)) (k : String) : Option (List String) :=
  (rows.find? (fun r => r.1 == k)).map Prod.snd

/-- Modelled from the spec (§4.2 MergeEngine): suffix each shared non-key
column with its source mode, then outer-join the traditional table `t` and
the advanced table `a` on the key. -/
def mergeEngine (t a : STable) : MergedTable :=
  { cols := t.cols.map (suffixCol a.cols tradSfx) ++ a.cols.map (suffixCol t.cols advSfx)
    rows :=
      t.rows.map (fun r =>
        (r.1,
          r.2.map some ++
            (match lookupVals a.rows r.1 with
             | some vs => vs.map some
             | none => List.replicate a.cols.length none))) ++
      (a.rows.filter (fun r => !(t.keys.contains r.1))).map (fun r =>
        (r.1, List.replicate t.cols.length none ++ r.2.map some)) }

/-- The keys of a merged table, in row order. -/
def MergedTable.keys (m : MergedTable) : List String :=
  m.rows.map Prod.fst

/-! ### Lemmas on `drop_duplicates` -/

theorem dropDupAux_mem {l : List Row} {seen : List Row} {r : Row} :
    r ∈ dropDupAux seen l ↔ r ∈ l ∧ r ∉ seen := by
  induction l generalizing seen with
  | nil => simp [dropDupAux]
  | cons x xs ih =>
    by_cases hx : x ∈ seen
    · simp only [dropDupAux, if_pos hx, ih, List.mem_cons]
      constructor
      · rintro ⟨h1, h2⟩; exact ⟨Or.inr h1, h2⟩
      · rintro ⟨h1 | h1, h2⟩
        · exact absurd hx (h1 ▸ h2)
        · exact ⟨h1, h2⟩
    · simp only [dropDupAux, if_neg hx, List.mem_cons, ih]
      constructor
      · rintro (rfl | ⟨h1, h2⟩)
        · exact ⟨Or.inl rfl, hx⟩
        · exact ⟨Or.inr h1, fun hr => h2 (Or.inr hr)⟩
      · rintro ⟨rfl | h1, h2⟩
        · exact Or.inl rfl
        · by_cases hxr : r = x
          · exact Or.inl hxr
          · exact Or.inr ⟨h1, fun hmem => hmem.elim hxr h2⟩

theorem dropDupAux_nodup (l : List Row) (seen : List Row) :
    (dropDupAux seen l).Nodup := by
  induction l generalizing seen with
  | nil => simp [dropDupAux]
  | cons x xs ih =>
    by_cases hx : x ∈ seen
    · simpa [dropDupAux, if_pos hx] using ih seen
    · rw [dropDupAux, if_neg hx]
      refine List.Pairwise.cons ?_ (ih (x :: seen))
      intro y hy
      rcases dropDupAux_mem.mp hy with ⟨-, hns⟩
      exact fun hxy => hns (hxy ▸ List.mem_cons_self x seen)

theorem dropDupAux_sublist (l : List Row) (seen : List Row) :
    (dropDupAux seen l).Sublist l := by
  induction l generalizing seen with
  | nil => simp [dropDupAux]
  | cons x xs ih =>
    by_cases hx : x ∈ seen
    · simpa [dropDupAux, if_pos hx] using (ih seen).trans (List.sublist_cons_self x xs)
    · simpa [dropDupAux, if_neg hx] using List.Sublist.cons₂ x (ih (x :: seen))

theorem dropDupAux_eq_self {l : List Row} {seen : List Row} (hl : l.Nodup)
    (hs : ∀ r ∈ l, r ∉ seen) : dropDupAux seen l = l := by
  induction l generalizing seen with
  | nil => simp [dropDupAux]
  | cons x xs ih =>
    have hx : x ∉ seen := hs x (List.mem_cons_self x xs)
    rw [dropDupAux, if_neg hx, ih (List.Nodup.of_cons hl)]
    intro r hr hmem
    rcases List.mem_cons.mp hmem with rfl | h
    · exact (List.nodup_cons.mp hl).1 hr
    · exact hs r (List.mem_cons_of_mem x hr) h

/-- C1: the claim fails on the code.  `_clean_for_tableau` removes only
exact duplicate rows, so two rows that share the (game identifier, entity
identifier) key but differ in a statistical column are both kept: the
persisted dataset is not one row per key, and no last-write-wins choice
happens. -/
theorem c1_dedup_key_counterexample :
    (Row.mk "0022500001" "1628983" [27]).gameId = (Row.mk "0022500001" "1628983" [31]).gameId ∧
    (Row.mk "0022500001" "1628983" [27]).entityId = (Row.mk "0022500001" "1628983" [31]).entityId ∧
    Row.mk "0022500001" "1628983" [27] ≠ Row.mk "0022500001" "1628983" [31] ∧
    cleanForTableau [Row.mk "0022500001" "1628983" [27], Row.mk "0022500001" "1628983" [31]] =
      [Row.mk "0022500001" "1628983" [27], Row.mk "0022500001" "1628983" [31]] := by
  refine ⟨rfl, rfl, by decide, by decide⟩

/-- C1 (amended): the deduplication step applied at each persist collapses
exact duplicate rows (all columns equal) to a single occurrence, keeping
the rows in first-occurrence order (the output is a duplicate-free sublist
of the accumulated dataset with the same row values); rows sharing a
(game, entity) key but differing in any column are all retained. -/
theorem c1_dedup_exact_rows :
    ∀ df : List Row, (cleanForTableau df).Nodup ∧ (cleanForTableau df).Sublist df ∧
      ∀ r : Row, r ∈ cleanForTableau df ↔ r ∈ df := by
  intro df
  refine ⟨dropDupAux_nodup df [], dropDupAux_sublist df [], ?_⟩
  intro r
  simp [cleanForTableau, dropDuplicates, dropDupAux_mem]

/-- C4: the deduplication step of `_clean_for_tableau` is idempotent:
applying it twice equals applying it once. -/
theorem c4_dedup_idempotent :
    ∀ df : List Row, cleanForTableau (cleanForTableau df) = cleanForTableau df := by
  intro df
  show dropDupAux [] (dropDupAux [] df) = dropDupAux [] df
  exact dropDupAux_eq_self (dropDupAux_nodup df []) (fun r _ h => (List.not_mem_nil r) h)

/-! ### Lemmas on decimal rendering and season labels -/

theorem digitsVal_append (ds : List Char) (c : Char) :
    digitsVal (ds ++ [c]) = digitsVal ds * 10 + (c.toNat - 48) := by
  simp [digitsVal, List.foldl_append]

theorem digitChar_toNat {n : Nat} (h : n < 10) : (digitChar n).toNat = 48 + n := by
  interval_cases n <;> decide

theorem digitChar_ne_dash {n : Nat} (h : n < 10) : digitChar n ≠ '-' := by
  interval_cases n <;> decide

theorem digitsVal_natReprAux {fuel n : Nat} (h : n < fuel) :
    digitsVal (natReprAux fuel n) = n := by
  induction fuel generalizing n with
  | zero => omega
  | succ fuel ih =>
    by_cases hn : n < 10
    · simp [natReprAux, hn, digitsVal, digitChar_toNat hn]
    · have hd : n / 10 < fuel := by omega
      rw [natReprAux, if_neg hn, digitsVal_append, ih hd,
        digitChar_toNat (Nat.mod_lt n (by norm_num))]
      omega

theorem digitsVal_natRepr (n : Nat) : digitsVal (natRepr n) = n :=
  digitsVal_natReprAux (Nat.lt_succ_self n)

theorem natReprAux_ne_dash {fuel n : Nat} : ∀ c ∈ natReprAux fuel n, c ≠ '-' := by
  induction fuel generalizing n with
  | zero => simp [natReprAux]
  | succ fuel ih =>
    intro c hc
    by_cases hn : n < 10
    · rw [natReprAux, if_pos hn] at hc
      simp only [List.mem_singleton] at hc
      exact hc ▸ digitChar_ne_dash hn
    · rw [natReprAux, if_neg hn] at hc
      rcases List.mem_append.mp hc with h | h
      · exact ih c h
      · simp only [List.mem_singleton] at h
        exact h ▸ digitChar_ne_dash (Nat.mod_lt n (by norm_num))

theorem natRepr_ne_dash (n : Nat) : ∀ c ∈ natRepr n, c ≠ '-' :=
  natReprAux_ne_dash

theorem pad2_ne_dash (n : Nat) : ∀ c ∈ pad2 n, c ≠ '-' := by
  intro c hc
  unfold pad2 at hc
  by_cases hn : n < 10
  · rw [if_pos hn] at hc
    simp only [List.mem_cons, List.not_mem_nil, or_false] at hc
    rcases hc with rfl | rfl
    · decide
    · exact digitChar_ne_dash hn
  · rw [if_neg hn] at hc
    exact natRepr_ne_dash n c hc

theorem digitsVal_pad2 (n : Nat) : digitsVal (pad2 n) = n := by
  unfold pad2
  by_cases hn : n < 10
  · simp [if_pos hn, digitsVal, digitChar_toNat hn]
  · rw [if_neg hn]
    exact digitsVal_natRepr n

theorem takeWhile_append_stop {p : Char → Bool} (xs ys : List Char) (y : Char)
    (hxs : ∀ c ∈ xs, p c = true) (hy : p y = false) :
    (xs ++ y :: ys).takeWhile p = xs := by
  induction xs with
  | nil => simp [List.takeWhile_cons, hy]
  | cons x xs ih =>
    have hx := hxs x (List.mem_cons_self x xs)
    simp only [List.cons_append, List.takeWhile_cons, hx, if_true]
    rw [ih (fun c hc => hxs c (List.mem_cons_of_mem x hc))]

theorem dropWhile_append_stop {p : Char → Bool} (xs ys : List Char) (y : Char)
    (hxs : ∀ c ∈ xs, p c = true) (hy : p y = false) :
    (xs ++ y :: ys).dropWhile p = y :: ys := by
  induction xs with
  | nil => simp [List.dropWhile_cons, hy]
  | cons x xs ih =>
    have hx := hxs x (List.mem_cons_self x xs)
    simp only [List.cons_append, List.dropWhile_cons, hx, if_true]
    exact ih (fun c hc => hxs c (List.mem_cons_of_mem x hc))

theorem labelStart_mkSeasonLabel (y : Nat) : labelStart (mkSeasonLabel y) = y := by
  unfold labelStart mkSeasonLabel
  rw [takeWhile_append_stop _ _ _
    (fun c hc => decide_eq_true (natRepr_ne_dash y c hc)) (by decide)]
  exact digitsVal_natRepr y

theorem labelEnd_mkSeasonLabel (y : Nat) : labelEnd (mkSeasonLabel y) = (y + 1) % 100 := by
  unfold labelEnd mkSeasonLabel
  rw [dropWhile_append_stop _ _ _
    (fun c hc => decide_eq_true (natRepr_ne_dash y c hc)) (by decide)]
  simpa using digitsVal_pad2 ((y + 1) % 100)

theorem seasonIter_range {s : String} {start : Nat} {endG : List Char}
    (hm : seasonMatch s = some (start, endG)) (h4 : endG.length = 4) :
    seasonIter s = .ok ((List.range' start (digitsVal endG + 1 - start)).map mkSeasonLabel) := by
  unfold seasonIter
  rw [hm]
  simp [h4]

/-- C2: the claim fails on the code.  The token `"2020-2019"` matches the
range pattern with end year 2019 not exceeding start year 2020, yet
`_season_iter` raises no validation error: it returns an empty list. -/
theorem c2_range_not_validated_counterexample :
    seasonMatch "2020-2019" = some (2020, ['2', '0', '1', '9']) ∧
    digitsVal ['2', '0', '1', '9'] < 2020 ∧
    seasonIter "2020-2019" = .ok [] := by
  refine ⟨by decide, by decide, rfl⟩

/-- C2 (amended): `_season_iter` fails with a validation error exactly when
the token matches neither season pattern; a well-formed range token whose
end year is below its start year returns normally with an empty list (and
an end year equal to the start year returns a single season, so neither
case raises). -/
theorem c2_error_iff_malformed :
    ∀ s : String,
      ((∃ msg, seasonIter s = .error msg) ↔ seasonMatch s = none) ∧
      (∀ start endG, seasonMatch s = some (start, endG) → endG.length ≠ 2 →
        digitsVal endG < start → seasonIter s = .ok []) := by
  intro s
  constructor
  · constructor
    · rintro ⟨msg, hmsg⟩
      unfold seasonIter at hmsg
      cases h : seasonMatch s with
      | none => rfl
      | some p =>
        obtain ⟨start, endG⟩ := p
        rw [h] at hmsg
        by_cases h2 : endG.length = 2 <;> simp [h2] at hmsg
    · intro h
      exact ⟨_, by unfold seasonIter; rw [h]⟩
  · intro start endG hm hne hlt
    unfold seasonIter
    rw [hm]
    simp only [if_neg hne]
    have : digitsVal endG + 1 - start = 0 := by omega
    rw [this]
    rfl

/-- C2 witness: the range `"2020-2019"` (end year below start year) is a
concrete token on which the expander returns normally. -/
theorem c2_error_iff_malformed_witness :
    seasonIter "2020-2019" = .ok [] :=
  (c2_error_iff_malformed "2020-2019").2 2020 ['2', '0', '1', '9']
    (by decide) (by decide) (by decide)

/-- C3: on every valid season-range token (four-digit end group), the
expander output is ordered with consecutive labels incrementing the start
year by one, and every produced label has its end part equal to
(start year + 1) mod 100. -/
theorem c3_range_labels :
    ∀ (s : String) (start : Nat) (endG : List Char) (out : List (List Char)),
      seasonMatch s = some (start, endG) → endG.length = 4 → seasonIter s = .ok out →
      (∀ i (h1 : i < out.length) (h2 : i + 1 < out.length),
        labelStart (out.get ⟨i + 1, h2⟩) = labelStart (out.get ⟨i, h1⟩) + 1) ∧
      (∀ lbl ∈ out, labelEnd lbl = (labelStart lbl + 1) % 100) := by
  intro s start endG out hm h4 hok
  rw [seasonIter_range hm h4] at hok
  have hout : out = (List.range' start (digitsVal endG + 1 - start)).map mkSeasonLabel := by
    cases hok
    rfl
  subst hout
  constructor
  · intro i h1 h2
    simp only [List.get_eq_getElem, List.getElem_map]
    rw [List.getElem_range', List.getElem_range',
      labelStart_mkSeasonLabel, labelStart_mkSeasonLabel]
    omega
  · intro lbl hl
    rcases List.mem_map.mp hl with ⟨y, _, rfl⟩
    rw [labelEnd_mkSeasonLabel, labelStart_mkSeasonLabel]

/-- C3 witness: the range token `"2020-2022"` expands to three labels with
the stated increment and mod-100 properties. -/
theorem c3_range_labels_witness :
    (∀ i (h1 : i < ([['2','0','2','0','-','2','1'], ['2','0','2','1','-','2','2'],
        ['2','0','2','2','-','2','3']] : List (List Char)).length)
      (h2 : i + 1 < ([['2','0','2','0','-','2','1'], ['2','0','2','1','-','2','2'],
        ['2','0','2','2','-','2','3']] : List (List Char)).length),
      labelStart (([['2','0','2','0','-','2','1'], ['2','0','2','1','-','2','2'],
        ['2','0','2','2','-','2','3']] : List (List Char)).get ⟨i + 1, h2⟩) =
        labelStart (([['2','0','2','0','-','2','1'], ['2','0','2','1','-','2','2'],
          ['2','0','2','2','-','2','3']] : List (List Char)).get ⟨i, h1⟩) + 1) ∧
    (∀ lbl ∈ ([['2','0','2','0','-','2','1'], ['2','0','2','1','-','2','2'],
        ['2','0','2','2','-','2','3']] : List (List Char)),
      labelEnd lbl = (labelStart lbl + 1) % 100) :=
  c3_range_labels "2020-2022" 2020 ['2','0','2','2'] _ (by decide) (by decide) rfl

/-! ### C5: resume position -/

/-- C5: with a stored marker, when the marker occurs in the filtered
identifier list the loop input is exactly the suffix of that list starting
at the marker's index (so no earlier identifier is fetched again); when the
marker does not occur, the loop input is the whole list from the
beginning. -/
theorem c5_resume_marker :
    ∀ (gameIds doneIds : List String) (m : String),
      gameIds.Nodup →
      (m ∈ gameIds.filter (fun gid => !doneIds.contains gid) →
        computeRemaining gameIds doneIds (some m) =
          (gameIds.filter (fun gid => !doneIds.contains gid)).drop
            ((gameIds.filter (fun gid => !doneIds.contains gid)).indexOf m) ∧
        ∀ i (h2 : i < (gameIds.filter (fun gid => !doneIds.contains gid)).length),
          i < (gameIds.filter (fun gid => !doneIds.contains gid)).indexOf m →
          (gameIds.filter (fun gid => !doneIds.contains gid)).get ⟨i, h2⟩ ∉
            computeRemaining gameIds doneIds (some m)) ∧
      (m ∉ gameIds.filter (fun gid => !doneIds.contains gid) →
        computeRemaining gameIds doneIds (some m) =
          gameIds.filter (fun gid => !doneIds.contains gid)) := by
  intro gameIds doneIds m hga
  set rem := gameIds.filter (fun gid => !doneIds.contains gid) with hrem
  have hnd : rem.Nodup := hga.filter _
  constructor
  · intro hm
    have heq : computeRemaining gameIds doneIds (some m) = rem.drop (rem.indexOf m) := by
      have hc : rem.contains m = true := List.elem_iff.mpr hm
      show (if rem.contains m = true then rem.drop (rem.indexOf m) else rem) = rem.drop (rem.indexOf m)
      rw [if_pos hc]
    refine ⟨heq, ?_⟩
    intro i h2 hilt
    rw [heq]
    set idx := rem.indexOf m with hidx
    have hsplit := List.take_append_drop idx rem
    have hnd2 : (rem.take idx ++ rem.drop idx).Nodup := by rw [hsplit]; exact hnd
    have hdisj := (List.nodup_append.mp hnd2).2.2
    have hi : i < (rem.take idx).length := by
      simp only [List.length_take]
      omega
    have hmem : rem.get ⟨i, h2⟩ ∈ rem.take idx := by
      have hgm : (rem.take idx).get ⟨i, hi⟩ ∈ rem.take idx := List.get_mem _ _ _
      have : (rem.take idx).get ⟨i, hi⟩ = rem.get ⟨i, h2⟩ := by
        simp [List.get_eq_getElem, List.getElem_take]
      rwa [this] at hgm
    exact fun hcontra => hdisj hmem hcontra
  · intro hm
    have hc : ¬rem.contains m = true := fun hc => hm (List.elem_iff.mp hc)
    show (if rem.contains m = true then rem.drop (rem.indexOf m) else rem) = rem
    rw [if_neg hc]

/-- C5 witness: with identifiers `["A","B","C","D"]`, `"A"` already done
and marker `"C"`, the loop input is `["C","D"]` and neither `"B"` nor any
identifier before the marker is fetched again. -/
theorem c5_resume_marker_witness :
    (("C" : String) ∈ (["A", "B", "C", "D"] : List String).filter
        (fun gid => !(["A"] : List String).contains gid) →
      computeRemaining ["A", "B", "C", "D"] ["A"] (some "C") =
        ((["A", "B", "C", "D"] : List String).filter
          (fun gid => !(["A"] : List String).contains gid)).drop
          (((["A", "B", "C", "D"] : List String).filter
            (fun gid => !(["A"] : List String).contains gid)).indexOf "C") ∧
      ∀ i (h2 : i < ((["A", "B", "C", "D"] : List String).filter
          (fun gid => !(["A"] : List String).contains gid)).length),
        i < ((["A", "B", "C", "D"] : List String).filter
          (fun gid => !(["A"] : List String).contains gid)).indexOf "C" →
        ((["A", "B", "C", "D"] : List String).filter
          (fun gid => !(["A"] : List String).contains gid)).get ⟨i, h2⟩ ∉
          computeRemaining ["A", "B", "C", "D"] ["A"] (some "C")) ∧
    (("C" : String) ∉ (["A", "B", "C", "D"] : List String).filter
        (fun gid => !(["A"] : List String).contains gid) →
      computeRemaining ["A", "B", "C", "D"] ["A"] (some "C") =
        (["A", "B", "C", "D"] : List String).filter
          (fun gid => !(["A"] : List String).contains gid)) :=
  c5_resume_marker ["A", "B", "C", "D"] ["A"] "C" (by decide)

/-! ### Lemmas on the fetch loop -/

theorem runStep_attempted (fetch : String → Option (List Row)) (n i : Nat)
    (st : RunState) (g : String) :
    (runStep fetch n i st g).attempted = st.attempted + 1 := by
  unfold runStep
  cases fetch g with
  | none => rfl
  | some df =>
    by_cases h : i % 100 = 0 ∨ i = n
    · simp [h]
    · simp [h]

theorem runLoop_attempted (fetch : String → Option (List Row)) (n : Nat) :
    ∀ (gids : List String) (i : Nat) (st : RunState),
      (runLoop fetch n i st gids).attempted = st.attempted + gids.length := by
  intro gids
  induction gids with
  | nil => intro i st; rfl
  | cons g rest ih =>
    intro i st
    show (runLoop fetch n (i + 1) (runStep fetch n i st g) rest).attempted = _
    rw [ih, runStep_attempted]
    simp [List.length_cons]
    omega

/-- The fetch oracle that always fails (a permanently unavailable data
source), used as a concrete input. -/
def fetchNone : String → Option (List Row) := fun _ => none

/-- A fetch oracle that succeeds on game `"A"` and fails on every other
identifier, used as a concrete input. -/
def fetchA : String → Option (List Row) :=
  fun gid => if gid = "A" then some [Row.mk "A" "P1" [27]] else none

/-- A concrete mid-run state, used as a concrete input. -/
def stOne : RunState :=
  { allData := [Row.mk "A" "P1" [27]], timeBuffer := 1, persisted := none,
    marker := none, sleeps := [], pauses := [], attempted := 1 }

/-- C6: when the fetch of an identifier fails, the loop body persists the
cleaned current accumulated dataset and writes that identifier to the
marker, records a pause of at least 30 seconds, and the loop goes on to
attempt every remaining identifier: no fetch failure terminates the run. -/
theorem c6_failure_persists_and_continues :
    ∀ (fetch : String → Option (List Row)) (n i : Nat) (st : RunState) (g : String),
      fetch g = none →
      (runStep fetch n i st g).persisted = some (cleanForTableau st.allData) ∧
      (runStep fetch n i st g).marker = some g ∧
      (runStep fetch n i st g).pauses = st.pauses ++ [max 30 (nextBuffer st.timeBuffer)] ∧
      (30 : ℚ) ≤ max 30 (nextBuffer st.timeBuffer) ∧
      ∀ rest : List String,
        (runLoop fetch n (i + 1) (runStep fetch n i st g) rest).attempted =
          st.attempted + 1 + rest.length := by
  intro fetch n i st g hf
  refine ⟨?_, ?_, ?_, le_max_left 30 _, ?_⟩
  · simp [runStep, hf]
  · simp [runStep, hf]
  · simp [runStep, hf]
  · intro rest
    rw [runLoop_attempted, runStep_attempted]

/-- C6 witness: a concrete failing fetch at identifier `"B"` in state
`stOne`. -/
theorem c6_failure_persists_and_continues_witness :
    (runStep fetchNone 2 2 stOne "B").persisted = some (cleanForTableau stOne.allData) ∧
    (runStep fetchNone 2 2 stOne "B").marker = some "B" ∧
    (runStep fetchNone 2 2 stOne "B").pauses = stOne.pauses ++ [max 30 (nextBuffer stOne.timeBuffer)] ∧
    (30 : ℚ) ≤ max 30 (nextBuffer stOne.timeBuffer) ∧
    ∀ rest : List String,
      (runLoop fetchNone 2 3 (runStep fetchNone 2 2 stOne "B") rest).attempted =
        stOne.attempted + 1 + rest.length :=
  c6_failure_persists_and_continues fetchNone 2 2 stOne "B" rfl

/-- C7: the claim fails on the code.  In a run over `["A", "B"]` where the
fetch of `"B"` raises, the failure branch writes `"B"` — the identifier of
the game that was *not* processed — to the marker file, while the persisted
output holds no row of game `"B"`. -/
theorem c7_marker_unprocessed_counterexample :
    fetchA "B" = none ∧
    (runRemaining fetchA [] 1 ["A", "B"]).marker = some "B" ∧
    (runRemaining fetchA [] 1 ["A", "B"]).persisted = some [Row.mk "A" "P1" [27]] ∧
    (Row.mk "A" "P1" [27]).gameId ≠ "B" := by
  refine ⟨rfl, rfl, rfl, by decide⟩

/-- C7 (amended): at a periodic checkpoint in the success branch, the
marker written is the identifier of the game just fully processed, whose
cleaned rows are part of the simultaneously persisted dataset; at the
failure branch, the marker written is the identifier of the game whose
fetch failed, and the dataset persisted with it does not include that
game's rows (so on resume that game is retried). -/
theorem c7_marker_sites :
    ∀ (fetch : String → Option (List Row)) (n i : Nat) (st : RunState) (g : String)
      (df : List Row),
      (fetch g = some df → (i % 100 = 0 ∨ i = n) →
        (runStep fetch n i st g).marker = some g ∧
        (runStep fetch n i st g).persisted = some (cleanForTableau (st.allData ++ df))) ∧
      (fetch g = none →
        (runStep fetch n i st g).marker = some g ∧
        (runStep fetch n i st g).persisted = some (cleanForTableau st.allData)) := by
  intro fetch n i st g df
  constructor
  · intro hf hcp
    constructor
    · simp [runStep, hf, if_pos hcp]
    · simp [runStep, hf, if_pos hcp]
  · intro hf
    constructor
    · simp [runStep, hf]
    · simp [runStep, hf]

/-- C7 witness: a concrete checkpointing success step (index 2 of 2, so
`i = n`) and a concrete failure step. -/
theorem c7_marker_sites_witness :
    ((fetchA "A" = some [Row.mk "A" "P1" [27]] → ((2 : Nat) % 100 = 0 ∨ (2 : Nat) = 2) →
      (runStep fetchA 2 2 stOne "A").marker = some "A" ∧
      (runStep fetchA 2 2 stOne "A").persisted =
        some (cleanForTableau (stOne.allData ++ [Row.mk "A" "P1" [27]]))) ∧
    (fetchA "A" = none →
      (runStep fetchA 2 2 stOne "A").marker = some "A" ∧
      (runStep fetchA 2 2 stOne "A").persisted = some (cleanForTableau stOne.allData))) ∧
    (runStep fetchA 2 2 stOne "A").marker = some "A" :=
  ⟨c7_marker_sites fetchA 2 2 stOne "A" [Row.mk "A" "P1" [27]],
    ((c7_marker_sites fetchA 2 2 stOne "A" [Row.mk "A" "P1" [27]]).1 rfl (Or.inr rfl)).1⟩

/-! ### Lemmas on the `time_buffer` arithmetic -/

theorem roundHalfEven_le {q : ℚ} {n : ℤ} (h : q ≤ n) : roundHalfEven q ≤ n := by
  have hfl : ⌊q⌋ ≤ n := by
    have := Int.floor_mono h
    rwa [Int.floor_intCast] at this
  unfold roundHalfEven
  by_cases h1 : q - ⌊q⌋ < 1/2
  · rw [if_pos h1]
    exact hfl
  · have hlt : ⌊q⌋ < n := by
      rcases lt_or_eq_of_le hfl with h2 | h2
      · exact h2
      · exfalso
        apply h1
        have hnq : (n : ℚ) ≤ q := by
          rw [← h2]
          exact Int.floor_le q
        have hq : q = (n : ℚ) := le_antisymm h hnq
        rw [hq, Int.floor_intCast]
        norm_num
    rw [if_neg h1]
    split_ifs <;> omega

theorem le_roundHalfEven (q : ℚ) : q - 1/2 ≤ (roundHalfEven q : ℚ) := by
  unfold roundHalfEven
  by_cases h1 : q - ⌊q⌋ < 1/2
  · rw [if_pos h1]
    linarith
  · rw [if_neg h1]
    have hup : q - 1/2 ≤ ((⌊q⌋ + 1 : ℤ) : ℚ) := by
      have := Int.lt_floor_add_one q
      push_cast
      linarith
    by_cases h2 : (1 : ℚ)/2 < q - ⌊q⌋
    · rw [if_pos h2]
      exact hup
    · rw [if_neg h2]
      have heq : q - ⌊q⌋ = 1/2 := le_antisymm (not_lt.mp h2) (not_lt.mp h1)
      by_cases h3 : 2 ∣ ⌊q⌋
      · rw [if_pos h3]
        linarith
      · rw [if_neg h3]
        exact hup

theorem nextBuffer_le_ten (b : ℚ) : nextBuffer b ≤ 10 := by
  unfold nextBuffer pyRound2
  have h1 : min (b * (3/2)) 10 * 100 ≤ ((1000 : ℤ) : ℚ) := by
    have := min_le_right (b * (3/2)) (10 : ℚ)
    push_cast
    linarith
  have h2 := roundHalfEven_le h1
  have h3 : ((roundHalfEven (min (b * (3/2)) 10 * 100) : ℤ) : ℚ) ≤ 1000 := by
    exact_mod_cast h2
  linarith

theorem le_nextBuffer {b : ℚ} (h1 : 1/100 ≤ b) (h2 : b ≤ 10) : b ≤ nextBuffer b := by
  unfold nextBuffer pyRound2
  rcases le_total (b * (3/2)) 10 with hmin | hmin
  · rw [min_eq_left hmin]
    have key := le_roundHalfEven (b * (3/2) * 100)
    rw [le_div_iff₀ (by norm_num : (0 : ℚ) < 100)]
    linarith
  · rw [min_eq_right hmin]
    have hre : roundHalfEven ((10 : ℚ) * 100) = 1000 := by
      norm_num [roundHalfEven]
    rw [hre]
    norm_num
    linarith

theorem entryClamp_lb (b : ℚ) : 1/100 ≤ entryClamp b := by
  unfold entryClamp
  split_ifs with h
  · norm_num
  · linarith [not_lt.mp h]

/-- `1/100 ≤ 1` in `ℚ` (helper fact for concrete instantiations). -/
theorem rat_centi_le_one : (1 : ℚ)/100 ≤ 1 := by norm_num

/-- `1 ≤ 10` in `ℚ` (helper fact for concrete instantiations). -/
theorem rat_one_le_ten : (1 : ℚ) ≤ 10 := by norm_num

/-- C10: the claim fails on the code.  The entry clamp only enforces a
lower bound, so a run started with `time_buffer = 50` keeps that delay
until the first failure, after which the update
`round(min(time_buffer * 1.5, 10.0), 2)` *decreases* the delay to 10: the
inter-request delay is neither bounded by 10.0 throughout the run nor
non-decreasing across failures. -/
theorem c10_buffer_decreasing_counterexample :
    entryClamp 50 = 50 ∧
    (runStep fetchNone 2 1
      { allData := [], timeBuffer := 50, persisted := none, marker := none,
        sleeps := [], pauses := [], attempted := 0 } "G").timeBuffer < 50 := by
  constructor
  · norm_num [entryClamp]
  · show nextBuffer 50 < 50
    norm_num [nextBuffer, pyRound2, roundHalfEven]

/-- C10 (amended): the delay is clamped to at least 0.01 at entry; each
failure replaces the delay `b` by `round2(min(1.5 * b, 10.0))`, a value
that never exceeds 10.0, and that is at least `b` whenever
`0.01 ≤ b ≤ 10.0` — so from the first failure onward the delay is
non-decreasing and bounded by 10.0 — and the pause taken immediately after
a failure is `max(30.0, new delay)`, at least 30 seconds. -/
theorem c10_buffer_invariants :
    ∀ (fetch : String → Option (List Row)) (n i : Nat) (st : RunState) (g : String) (b : ℚ),
      fetch g = none → 1/100 ≤ b → b ≤ 10 →
      (∀ c : ℚ, 1/100 ≤ entryClamp c) ∧
      (∀ c : ℚ, nextBuffer c ≤ 10) ∧
      b ≤ nextBuffer b ∧
      (runStep fetch n i st g).timeBuffer = nextBuffer st.timeBuffer ∧
      (runStep fetch n i st g).pauses = st.pauses ++ [max 30 (nextBuffer st.timeBuffer)] ∧
      (30 : ℚ) ≤ max 30 (nextBuffer st.timeBuffer) := by
  intro fetch n i st g b hf hb1 hb2
  refine ⟨entryClamp_lb, nextBuffer_le_ten, le_nextBuffer hb1 hb2, ?_, ?_, le_max_left 30 _⟩
  · simp [runStep, hf]
  · simp [runStep, hf]

/-- C10 witness: the invariants instantiated at a concrete failing step
with delay 1. -/
theorem c10_buffer_invariants_witness :
    (∀ c : ℚ, 1/100 ≤ entryClamp c) ∧
    (∀ c : ℚ, nextBuffer c ≤ 10) ∧
    (1 : ℚ) ≤ nextBuffer 1 ∧
    (runStep fetchNone 2 2 stOne "B").timeBuffer = nextBuffer stOne.timeBuffer ∧
    (runStep fetchNone 2 2 stOne "B").pauses = stOne.pauses ++ [max 30 (nextBuffer stOne.timeBuffer)] ∧
    (30 : ℚ) ≤ max 30 (nextBuffer stOne.timeBuffer) :=
  c10_buffer_invariants fetchNone 2 2 stOne "B" 1 rfl rat_centi_le_one rat_one_le_ten

/-! ### Lemmas on the MergeEngine -/

theorem hasSuffix_append (b sfx : List Char) : hasSuffix sfx (b ++ sfx) = true := by
  simp [hasSuffix]

theorem suffixCol_inj_on {other : List (List Char)} {sfx : List Char}
    {c d : List Char} (hc : hasSuffix sfx c = false) (hd : hasSuffix sfx d = false)
    (h : suffixCol other sfx c = suffixCol other sfx d) : c = d := by
  unfold suffixCol at h
  by_cases hcm : c ∈ other <;> by_cases hdm : d ∈ other
  · rw [if_pos hcm, if_pos hdm] at h
    exact List.append_cancel_right h
  · rw [if_pos hcm, if_neg hdm] at h
    exact absurd (h ▸ hasSuffix_append c sfx) (by simp [hd])
  · rw [if_neg hcm, if_pos hdm] at h
    exact absurd (h.symm ▸ hasSuffix_append d sfx) (by simp [hc])
  · rw [if_neg hcm, if_neg hdm] at h
    exact h

theorem trad_ne_adv_suffixed {c d : List Char} :
    c ++ tradSfx ≠ d ++ advSfx := by
  intro h
  have hrev := congrArg List.reverse h
  rw [List.reverse_append, List.reverse_append] at hrev
  have h1 : tradSfx.reverse = 'd' :: ['a', 'r', 't', '_'] := rfl
  have h2 : advSfx.reverse = 'v' :: ['d', 'a', '_'] := rfl
  rw [h1, h2] at hrev
  rw [List.cons_append, List.cons_append] at hrev
  injection hrev with hhead _
  exact absurd hhead (by decide)

theorem mergeEngine_cols_nodup {t a : STable}
    (h1 : t.cols.Nodup) (h2 : a.cols.Nodup)
    (hf : ∀ c, c ∈ t.cols ++ a.cols →
      hasSuffix tradSfx c = false ∧ hasSuffix advSfx c = false) :
    (mergeEngine t a).cols.Nodup := by
  show (t.cols.map (suffixCol a.cols tradSfx) ++ a.cols.map (suffixCol t.cols advSfx)).Nodup
  rw [List.nodup_append]
  refine ⟨?_, ?_, ?_⟩
  · refine h1.map_on ?_
    intro c hcm d hdm h
    exact suffixCol_inj_on
      (hf c (List.mem_append_left _ hcm)).1 (hf d (List.mem_append_left _ hdm)).1 h
  · refine h2.map_on ?_
    intro c hcm d hdm h
    exact suffixCol_inj_on
      (hf c (List.mem_append_right _ hcm)).2 (hf d (List.mem_append_right _ hdm)).2 h
  · intro x hx hy
    rcases List.mem_map.mp hx with ⟨c, hcm, rfl⟩
    rcases List.mem_map.mp hy with ⟨d, hdm, hcd⟩
    unfold suffixCol at hcd
    by_cases hca : c ∈ a.cols <;> by_cases hdt : d ∈ t.cols
    · rw [if_pos hdt] at hcd
      rw [if_pos hca] at hcd
      exact trad_ne_adv_suffixed hcd.symm
    · rw [if_neg hdt] at hcd
      rw [if_pos hca] at hcd
      exact absurd (hcd ▸ hasSuffix_append c tradSfx)
        (by simp [(hf d (List.mem_append_right _ hdm)).1])
    · rw [if_pos hdt] at hcd
      rw [if_neg hca] at hcd
      exact absurd (hcd.symm ▸ hasSuffix_append d advSfx)
        (by simp [(hf c (List.mem_append_left _ hcm)).2])
    · rw [if_neg hdt] at hcd
      rw [if_neg hca] at hcd
      exact hdt (hcd ▸ hcm)

theorem contains_eq_mem_iff (l : List String) (k : String) : l.contains k = true ↔ k ∈ l :=
  List.elem_iff

theorem mergeEngine_keys (t a : STable) :
    (mergeEngine t a).keys =
      t.keys ++ (a.rows.filter (fun r => !(t.keys.contains r.1))).map Prod.fst := by
  show (List.map _ t.rows ++ List.map _ (a.rows.filter _)).map Prod.fst = _
  rw [List.map_append, List.map_map, List.map_map]
  rfl

theorem mergeEngine_rows_length {t a : STable} (hk1 : t.keys.Nodup) (hk2 : a.keys.Nodup) :
    (mergeEngine t a).rows.length = (t.keys.toFinset ∪ a.keys.toFinset).card := by
  have hfm : a.keys.filter (fun k => !(t.keys.contains k)) =
      (a.rows.filter (fun r => !(t.keys.contains r.1))).map Prod.fst := by
    show (a.rows.map Prod.fst).filter _ = _
    rw [List.filter_map]
    rfl
  have hlen : (mergeEngine t a).rows.length =
      t.keys.length + (a.keys.filter (fun k => !(t.keys.contains k))).length := by
    show (List.map _ t.rows ++ List.map _ (a.rows.filter _)).length = _
    rw [List.length_append, List.length_map, List.length_map, hfm, List.length_map]
    simp [STable.keys]
  rw [hlen]
  have hA : t.keys.toFinset.card = t.keys.length := List.toFinset_card_of_nodup hk1
  have hqnd : (a.keys.filter (fun k => !(t.keys.contains k))).Nodup := hk2.filter _
  have hB : (a.keys.filter (fun k => !(t.keys.contains k))).toFinset.card =
      (a.keys.filter (fun k => !(t.keys.contains k))).length :=
    List.toFinset_card_of_nodup hqnd
  have hsd : a.keys.toFinset \ t.keys.toFinset =
      (a.keys.filter (fun k => !(t.keys.contains k))).toFinset := by
    rw [List.toFinset_filter, Finset.sdiff_eq_filter]
    refine Finset.filter_congr ?_
    intro k _
    simp only [Bool.not_eq_true', List.mem_toFinset]
    constructor
    · intro h
      exact Bool.eq_false_iff.mpr (fun hc => h ((contains_eq_mem_iff _ _).mp hc))
    · intro h hmem
      have hc := (contains_eq_mem_iff t.keys k).mpr hmem
      rw [h] at hc
      exact Bool.false_ne_true hc
  have hcard : (t.keys.toFinset ∪ a.keys.toFinset).card =
      t.keys.toFinset.card + (a.keys.toFinset \ t.keys.toFinset).card := by
    rw [← Finset.union_sdiff_self_eq_union]
    exact Finset.card_union_of_disjoint Finset.disjoint_sdiff
  rw [hcard, hA, hsd, hB]

theorem mergeEngine_no_row_loss (t a : STable) :
    ∀ k, k ∈ t.keys ∨ k ∈ a.keys ↔ k ∈ (mergeEngine t a).keys := by
  intro k
  rw [mergeEngine_keys, List.mem_append]
  constructor
  · rintro (h | h)
    · exact Or.inl h
    · by_cases ht : k ∈ t.keys
      · exact Or.inl ht
      · refine Or.inr ?_
        rcases List.mem_map.mp ((by rfl : a.keys = a.rows.map Prod.fst) ▸ h) with ⟨r, hr, rfl⟩
        refine List.mem_map.mpr ⟨r, List.mem_filter.mpr ⟨hr, ?_⟩, rfl⟩
        simp only [Bool.not_eq_true']
        exact Bool.eq_false_iff.mpr (fun hc => ht ((contains_eq_mem_iff _ _).mp hc))
  · rintro (h | h)
    · exact Or.inl h
    · rcases List.mem_map.mp h with ⟨r, hr, rfl⟩
      exact Or.inr (List.mem_map.mpr ⟨r, (List.mem_filter.mp hr).1, rfl⟩)

/-- The traditional-mode table used as a concrete input. -/
def tTradEx : STable :=
  { cols := [['p', 't', 's']]
    rows := [("G1:T1", ["100"]), ("G1:T2", ["98"])] }

/-- The advanced-mode table used as a concrete input. -/
def tAdvEx : STable :=
  { cols := [['p', 't', 's']]
    rows := [("G1:T1", ["55"]), ("G1:T3", ["60"])] }

/-- C8 (spec-modelled): for tables with duplicate-free column names and
keys, none of whose column names is already mode-suffixed, the MergeEngine
suffixes shared non-key columns by source mode and outer-joins on the key:
the result has no column-name collisions, keeps every key of either input
(no row loss), and has exactly one row per key of the union of the two key
sets. -/
theorem c8_merge_outer_join :
    ∀ t a : STable,
      t.cols.Nodup → a.cols.Nodup →
      (∀ c, c ∈ t.cols ++ a.cols →
        hasSuffix tradSfx c = false ∧ hasSuffix advSfx c = false) →
      t.keys.Nodup → a.keys.Nodup →
      (mergeEngine t a).cols.Nodup ∧
      (mergeEngine t a).rows.length = (t.keys.toFinset ∪ a.keys.toFinset).card ∧
      ∀ k, k ∈ t.keys ∨ k ∈ a.keys ↔ k ∈ (mergeEngine t a).keys := by
  intro t a h1 h2 hf hk1 hk2
  exact ⟨mergeEngine_cols_nodup h1 h2 hf, mergeEngine_rows_length hk1 hk2,
    mergeEngine_no_row_loss t a⟩

/-- C8 witness: two concrete two-row tables sharing the non-key column
`pts` and one key. -/
theorem c8_merge_outer_join_witness :
    (mergeEngine tTradEx tAdvEx).cols.Nodup ∧
    (mergeEngine tTradEx tAdvEx).rows.length =
      (tTradEx.keys.toFinset ∪ tAdvEx.keys.toFinset).card ∧
    ∀ k, k ∈ tTradEx.keys ∨ k ∈ tAdvEx.keys ↔ k ∈ (mergeEngine tTradEx tAdvEx).keys :=
  c8_merge_outer_join tTradEx tAdvEx (by decide) (by decide) (by decide)
    (by decide) (by decide)
